import Mathlib

/-!
Verification of the core control logic of the `igata` execution harness.

Each definition below is a shallow embedding of a function from the
repository sources (`igata/utils.py`, `igata/handlers/aws/input/sqs.py`,
`igata/handlers/aws/output/__init__.py`, `igata/handlers/aws/output/dynamodb.py`,
`igata/runners/executors.py`).  Python dictionaries are modelled as
insertion-ordered association lists, Python scalars as an inductive `PyVal`,
wall-clock measurements as explicitly passed rational values, and exceptions
as `Except` / explicit outcome constructors.
-/

namespace Igata

/-- Model of a Python/JSON value as manipulated by the igata code paths
(scalars, strings, lists, and insertion-ordered dictionaries). -/
inductive PyVal where
  | none
  | boolV (b : Bool)
  | num (q : ℚ)
  | str (s : String)
  | list (xs : List PyVal)
  | dict (fs : List (String × PyVal))
deriving Repr

/-- Python truthiness for the values of `PyVal` (`bool(v)`). -/
def pyTruthy : PyVal → Bool
  | .none => false
  | .boolV b => b
  | .num q => q != 0
  | .str s => s != ""
  | .list xs => !xs.isEmpty
  | .dict fs => !fs.isEmpty

/-- Membership `key in d` for a Python dict modelled as an association list. -/
def dictContains (fs : List (String × PyVal)) (key : String) : Bool :=
  fs.any (fun kv => kv.1 == key)

/-- Lookup `d[key]` (first occurrence; Python dicts have unique keys). -/
def dictGet (fs : List (String × PyVal)) (key : String) : Option PyVal :=
  (fs.find? (fun kv => kv.1 == key)).map (·.2)

/-- Assignment `d[key] = v`: replace in place when the key exists, else append
(insertion-order semantics of a Python dict). -/
def dictSet (fs : List (String × PyVal)) (key : String) (v : PyVal) :
    List (String × PyVal) :=
  match fs with
  | [] => [(key, v)]
  | (k, w) :: tl =>
      if k == key then (k, v) :: tl else (k, w) :: dictSet tl key v

/-- Removal `d.pop(key)` restricted to the removal effect (drop the entry if present). -/
def dictPop (fs : List (String × PyVal)) (key : String) : List (String × PyVal) :=
  match fs with
  | [] => []
  | (k, w) :: tl => if k == key then tl else (k, w) :: dictPop tl key

/-- Deletion `del d[key]` / absence of a field: association list without the key's entry. -/
def dictErase (fs : List (String × PyVal)) (key : String) : List (String × PyVal) :=
  dictPop fs key

/-! ## `igata.utils.flatten`

    ```python
    def flatten(nested_object, keystring="", allow_null_strings=True, separator="__"):
    if isinstance(nested_object, dict):
        keystring = f"{keystring}{separator}" if keystring else keystring
        for key in nested_object:
            updated_keystring = f"{keystring}{key}"
            yield from flatten(nested_object[key], updated_keystring, ...)
    elif isinstance(nested_object, list):
        for list_element in nested_object:
            yield from flatten(list_element, keystring, ...)
    else:
        if not allow_null_strings:
            if nested_object != "":
                yield keystring, nested_object
        else:
            yield keystring, nested_object
    ```

The generator is modelled as the list of yielded `(keystring, value)` pairs.
In Python 3, `x != ""` is `True` for every non-string `x`, so with
`allow_null_strings=False` exactly the leaves equal to the empty string are
omitted. -/
mutual

def flatten (allowNullStrings : Bool) (separator : String) :
    PyVal → String → List (String × PyVal)
  | .dict fs, keystring =>
      let prefixStr := if keystring ≠ "" then keystring ++ separator else keystring
      flattenFields allowNullStrings separator fs prefixStr
  | .list xs, keystring => flattenElems allowNullStrings separator xs keystring
  | .str s, keystring =>
      if allowNullStrings = false ∧ s = "" then [] else [(keystring, .str s)]
  | v, keystring => [(keystring, v)]

def flattenFields (allowNullStrings : Bool) (separator : String) :
    List (String × PyVal) → String → List (String × PyVal)
  | [], _ => []
  | (k, v) :: tl, prefixStr =>
      flatten allowNullStrings separator v (prefixStr ++ k) ++
        flattenFields allowNullStrings separator tl prefixStr

def flattenElems (allowNullStrings : Bool) (separator : String) :
    List PyVal → String → List (String × PyVal)
  | [], _ => []
  | x :: tl, keystring =>
      flatten allowNullStrings separator x keystring ++
        flattenElems allowNullStrings separator tl keystring

end

/-! ## The detailed-results dedup key

`DynamodbOutputCtxManager.put_records` computes, for every individual result
entry of a record:

    ```python
    flattened_result = tuple(flatten(result, allow_null_strings=False))
    output_item["hashkey"] = md5(str(sorted(flattened_result)).encode("utf8")).hexdigest()
    ```

`sorted` orders the `(keystring, value)` tuples; `str` renders the sorted
tuple and `md5(...).hexdigest()` digests that rendering.  The digest and the
tuple rendering are modelled as an arbitrary function `digest` from the sorted
flattened pair list to the key string: every property proved below holds for
the real `md5`-of-`str` composite because it is one such function. -/
/-- Sorting `sorted(flattened_result)`: sort the pairs by their key string
(Python compares tuples component-wise; the first components are the
keystrings). -/
def pySortedPairs (pairs : List (String × PyVal)) : List (String × PyVal) :=
  pairs.mergeSort (fun a b => a.1 ≤ b.1)

/-- The `put_records` flattening of one result entry:
`tuple(flatten(result, allow_null_strings=False))` (default separator). -/
def flattenedResult (result : PyVal) : List (String × PyVal) :=
  flatten false "__" result ""

/-- The dedup key written to the `hashkey` attribute of the detailed-results
table, parametric in the digest applied to the sorted flattened pairs. -/
def dedupHashkey (digest : List (String × PyVal) → String) (result : PyVal) :
    String :=
  digest (pySortedPairs (flattenedResult result))

/-! ## `igata.utils.serialize_json_and_chunk_by_bytes`

    ```python
    def serialize_json_and_chunk_by_bytes(items, max_bytes=2048):
    is_initial = True
    last_json_str = None
    chunked_items = []
    for item in items:
        if chunked_items:
            json_str = json.dumps(chunked_items)
            json_bytes = json_str.encode("utf8")
            if is_initial and len(json_bytes) > max_bytes:
                raise ValueError(...)
            elif len(json_bytes) > max_bytes:
                yield last_json_str
                chunked_items = chunked_items[-1:]
            last_json_str = json_str
        chunked_items.append(item)
        is_initial = False
    if chunked_items:
        json_str = json.dumps(chunked_items)
        encoded = json_str.encode("utf8")
        if len(encoded) >= max_bytes:
            yield json.dumps(chunked_items[:-1])
            yield json.dumps(chunked_items[-1:])
        else:
            yield json_str
    ```

`json.dumps` of a list uses the default item separator `", "`.  The
rendering below covers the value shapes the function is applied to
(strings, numbers, null, booleans, and nested lists/objects of those);
string escaping is not modelled, so values appearing in theorems use only
characters that `json.dumps` emits verbatim.  The generator is modelled as
an `Except`: `.error` for the `raise`, and the ordered list of yields
otherwise.  A yield of Python `None` (possible because `last_json_str`
starts as `None`) is represented as `Option.none`. -/
mutual

def pyJsonDumps : PyVal → String
  | .none => "null"
  | .boolV b => if b then "true" else "false"
  | .num q => if q.den = 1 then toString q.num else toString q
  | .str s => "\"" ++ s ++ "\""
  | .list xs => "[" ++ pyJsonDumpsListInner xs ++ "]"
  | .dict fs => "\x7b" ++ pyJsonDumpsFieldsInner fs ++ "\x7d"

def pyJsonDumpsListInner : List PyVal → String
  | [] => ""
  | [x] => pyJsonDumps x
  | x :: tl => pyJsonDumps x ++ ", " ++ pyJsonDumpsListInner tl

def pyJsonDumpsFieldsInner : List (String × PyVal) → String
  | [] => ""
  | [(k, v)] => "\"" ++ k ++ "\": " ++ pyJsonDumps v
  | (k, v) :: tl => "\"" ++ k ++ "\": " ++ pyJsonDumps v ++ ", " ++ pyJsonDumpsFieldsInner tl

end

/-- Rendering `json.dumps(chunked_items)` for the chunker's accumulator list. -/
def dumpsList (xs : List PyVal) : String :=
  pyJsonDumps (.list xs)

/-- The trailing `if chunked_items:` block of
`serialize_json_and_chunk_by_bytes` (the yields after the loop ends). -/
def chunkTail (maxBytes : Nat) (chunkedItems : List PyVal) : List (Option String) :=
  match chunkedItems with
  | [] => []
  | _ :: _ =>
      let jsonStr := dumpsList chunkedItems
      if jsonStr.utf8ByteSize ≥ maxBytes then
        [some (dumpsList chunkedItems.dropLast),
         some (dumpsList (chunkedItems.drop (chunkedItems.length - 1)))]
      else
        [some jsonStr]

/-- The `for item in items:` loop of `serialize_json_and_chunk_by_bytes`,
carrying `is_initial`, `last_json_str` and `chunked_items`. -/
def chunkGo (maxBytes : Nat) :
    List PyVal → Bool → Option String → List PyVal →
      Except String (List (Option String))
  | [], _, _, chunkedItems => .ok (chunkTail maxBytes chunkedItems)
  | item :: rest, isInitial, lastJsonStr, chunkedItems =>
      match chunkedItems with
      | [] => chunkGo maxBytes rest false lastJsonStr [item]
      | c :: cs =>
          let jsonStr := dumpsList (c :: cs)
          let jsonBytes := jsonStr.utf8ByteSize
          if isInitial ∧ jsonBytes > maxBytes then
            .error ("Single item > max_bytes(" ++ toString maxBytes ++ ": " ++ jsonStr)
          else if jsonBytes > maxBytes then
            match chunkGo maxBytes rest false (some jsonStr)
                (((c :: cs).drop (cs.length)) ++ [item]) with
            | .error e => .error e
            | .ok ys => .ok (lastJsonStr :: ys)
          else
            chunkGo maxBytes rest false (some jsonStr) ((c :: cs) ++ [item])

/-- Function `serialize_json_and_chunk_by_bytes(items, max_bytes)`: the sequence of
yielded values (`.ok`), or the raised `ValueError` (`.error`). -/
def serializeJsonAndChunkByBytes (items : List PyVal) (maxBytes : Nat) :
    Except String (List (Option String)) :=
  chunkGo maxBytes items true Option.none []

/-! ## `SQSMessageS3InputImageCtxManager` intake
(`igata/handlers/aws/input/sqs.py`)

    ```python
    estimated_visibility_timeout = self.max_processing_requests * MAX_PER_REQUEST_PROCESSING_SECONDS
    max_processing_requests_exceeded = False
    while True:  # NOTE: if a single 'sqs message' exceeds this count it will be accepted!
    messages = queue.receive_messages(MaxNumberOfMessages=1, ...)
    if messages:
        for message in messages:
            try:
                processing_requests = json.loads(message.body)
                all_processing_requests.extend(processing_requests)
                self.processed_messages.append(message)  # for deleting on success
            except json.decoder.JSONDecodeError:
                message.delete()
            if len(all_processing_requests) >= self.max_processing_requests:
                max_processing_requests_exceeded = True
                break
    else:
        break
    if max_processing_requests_exceeded:
        break
    ```

The queue is modelled as the list of message bodies that successive
single-message `receive_messages` calls return (an empty remainder models
"no messages returned"); a message is identified by its position.  Note
`list.extend` of a decoded JSON *object* extends with the object's keys
(`extend` iterates the dict), not with the object itself — the
`isinstance(all_processing_requests, list)` normalization after the loop
can never fire because the accumulator starts as, and remains, a list. -/
/-- A fetched SQS message body after `json.loads`: undecodable, a JSON
array, or a JSON object.  (A scalar body such as `5` would make
`list.extend` raise an uncaught `TypeError` and is outside every claim.) -/
inductive MsgBody where
  | invalid
  | arr (units : List PyVal)
  | obj (fields : List (String × PyVal))

/-- What `all_processing_requests.extend(json.loads(body))` appends:
`none` models the `JSONDecodeError`, an array contributes its elements,
and a dict contributes its *keys* (Python iterates a dict by key). -/
def bodyUnits : MsgBody → Option (List PyVal)
  | .invalid => Option.none
  | .arr us => some us
  | .obj fs => some (fs.map (fun kv => PyVal.str kv.1))

/-- State after the receive loop: accumulated request units, indices of
messages appended to `processed_messages`, indices of messages deleted on
decode failure, and how many messages were fetched. -/
structure IntakeResult where
  accumulated : List PyVal
  tracked : List Nat
  decodeDeleted : List Nat
  fetched : Nat
deriving Repr

/-- The receive loop.  `idx` is the index of the next message to fetch;
one message is fetched per iteration, its units are appended wholesale,
and the loop stops once `len(all_processing_requests) >= cap` or the queue
is exhausted. -/
def intakeGo (cap : Nat) :
    List MsgBody → Nat → List PyVal → List Nat → List Nat → IntakeResult
  | [], idx, acc, tracked, deleted => ⟨acc, tracked, deleted, idx⟩
  | m :: rest, idx, acc, tracked, deleted =>
      match bodyUnits m with
      | some units =>
          let acc' := acc ++ units
          if acc'.length ≥ cap then ⟨acc', tracked ++ [idx], deleted, idx + 1⟩
          else intakeGo cap rest (idx + 1) acc' (tracked ++ [idx]) deleted
      | Option.none =>
          if acc.length ≥ cap then ⟨acc, tracked, deleted ++ [idx], idx + 1⟩
          else intakeGo cap rest (idx + 1) acc tracked (deleted ++ [idx])

/-- The accumulation phase of `get_records` with capacity
`max_processing_requests = cap`. -/
def sqsIntake (queue : List MsgBody) (cap : Nat) : IntakeResult :=
  intakeGo cap queue 0 [] [] []

/-- All units of the first `k` fetched messages, in order (a decode
failure contributes no units). -/
def acceptedUnits (queue : List MsgBody) (k : Nat) : List PyVal :=
  ((queue.take k).map (fun b => (bodyUnits b).getD [])).flatten

/-- Indices (starting at `idx`) of the messages of `l` that decode
successfully — the messages appended to `processed_messages`. -/
def okIndices : List MsgBody → Nat → List Nat
  | [], _ => []
  | m :: tl, idx =>
      (if (bodyUnits m).isSome then [idx] else []) ++ okIndices tl (idx + 1)

/-- Indices of the messages of `l` that fail to decode — the messages
deleted inside the receive loop. -/
def badIndices : List MsgBody → Nat → List Nat
  | [], _ => []
  | m :: tl, idx =>
      (if (bodyUnits m).isNone then [idx] else []) ++ badIndices tl (idx + 1)

/-! ## `SQSMessageS3InputImageCtxManager.__exit__`

    ```python
    def __exit__(self, exception_type, exception_value, traceback):
    if all(o is None for o in (exception_type, exception_value, traceback)):
        for message in self.processed_messages:
            message.delete()
    else:
        if self.processed_messages:
            for message in self.processed_messages:
                message.change_visibility(
                    VisibilityTimeout=settings.SQS_VISIBILITYTIMEOUT_SECONDS_ON_EXCEPTION)
    ```

`raised` is whether the scoped run exited with an exception (the
`exception_type is not None` case).  A run's externally visible queue
operations are the in-loop deletes of undecodable messages plus these
scope-exit operations. -/
/-- Constant `settings.SQS_VISIBILITYTIMEOUT_SECONDS_ON_EXCEPTION` (default `"5"`). -/
def visibilityTimeoutOnException : Nat := 5

/-- A queue operation issued against a fetched message (by queue index). -/
inductive SQSAction where
  | delete (idx : Nat)
  | changeVisibility (idx : Nat) (timeoutSeconds : Nat)
deriving DecidableEq, Repr

/-- The scope-exit (`__exit__`) operations on the tracked messages. -/
def sqsExitActions (tracked : List Nat) (raised : Bool) : List SQSAction :=
  if raised then
    tracked.map (fun i => SQSAction.changeVisibility i visibilityTimeoutOnException)
  else
    tracked.map SQSAction.delete

/-- All queue operations of one drain run: mid-loop deletions of
undecodable messages followed by the scope-exit handling of the tracked
(successfully decoded) messages. -/
def sqsRunActions (queue : List MsgBody) (cap : Nat) (raised : Bool) : List SQSAction :=
  let r := sqsIntake queue cap
  r.decodeDeleted.map SQSAction.delete ++ sqsExitActions r.tracked raised

/-! ## The yield phase of `SQSMessageS3InputImageCtxManager.get_records`

    ```python
    if all_processing_requests:
    if not isinstance(all_processing_requests, list):  # never true: it is built as a list
        all_processing_requests = [all_processing_requests]
    for request in all_processing_requests:
        for s3uri_key in self.s3uri_keys:
            s3uri = request[s3uri_key]
            bucket, key = parse_s3_uri(s3uri)
            (bucket, key), image, download_time, error_message = prepare_images(bucket, key)
            if error_message:
                if "errors" not in request:
                    request["errors"] = [error_message]
                else:
                    if not request["errors"]:
                        request["errors"] = []
                    request["errors"].append(error_message)
            info = {"bucket": bucket, "key": key, "download_time": download_time,
                    "current_s3uri_key": s3uri_key}
            info.update(request)
            yield image, info
    ```

`prepare_images` (an external S3 download) is a parameter.  `request[s3uri_key]`
on a non-dict request (e.g. the string keys produced by `extend` of an object
body) raises a `TypeError`; on a dict without the key it raises a `KeyError`.
A raise aborts the generator after the yields already produced. -/
/-- Outcome of `prepare_images(bucket, key)`: the image array, the measured
download time, and an optional error message. -/
structure DownloadResult where
  image : PyVal
  downloadTime : ℚ
  errorMessage : Option String

/-- Parsing `parse_s3_uri("s3://bucket/key")`: netloc and path-without-leading-slash
(modelled for `s3://`-shaped URIs, the only shape the handlers produce). -/
def parseS3Uri (uri : String) : String × String :=
  let rest := uri.drop 5
  (rest.takeWhile (· ≠ '/'), (rest.dropWhile (· ≠ '/')).drop 1)

/-- The error-append used in `get_records` and in the executor's
timeout/exception handlers: create the `errors` list if absent, reset it if
falsy, then append.  (A truthy non-list `errors` value would raise
`AttributeError` in Python; theorems needing this helper assume list-or-
falsy-or-absent `errors`, see `errorsWellFormed`.) -/
def appendErrorResetFalsy (fs : List (String × PyVal)) (msg : String) :
    List (String × PyVal) :=
  match dictGet fs "errors" with
  | Option.none => dictSet fs "errors" (.list [.str msg])
  | some v =>
      if pyTruthy v then
        match v with
        | .list xs => dictSet fs "errors" (.list (xs ++ [.str msg]))
        | _ => dictSet fs "errors" (.list [.str msg])
      else
        dictSet fs "errors" (.list [.str msg])

/-- Subscript access `request[key]`. -/
def pySubscript (v : PyVal) (key : String) : Except String PyVal :=
  match v with
  | .dict fs =>
      match dictGet fs key with
      | some x => .ok x
      | Option.none => .error ("KeyError: " ++ key)
  | _ => .error "TypeError: string indices must be integers"

/-- Fields of a request dict (`[]` for non-dicts, which cannot reach the
places this is used). -/
def dictFieldsOf : PyVal → List (String × PyVal)
  | .dict fs => fs
  | _ => []

/-- One `(request, s3uri_key)` step of the yield loop: resolve the URI
field, download, attach any error to the request, build `info`, yield
`(image, info)`; returns the possibly mutated request alongside. -/
def imageYieldStep (download : String → String → DownloadResult)
    (request : PyVal) (s3uriKey : String) :
    Except String ((PyVal × List (String × PyVal)) × PyVal) :=
  match pySubscript request s3uriKey with
  | .error e => .error e
  | .ok s3uri =>
      match s3uri with
      | .str uri =>
          let (bucket, key) := parseS3Uri uri
          let dl := download bucket key
          let request' :=
            match dl.errorMessage with
            | some msg => PyVal.dict (appendErrorResetFalsy (dictFieldsOf request) msg)
            | Option.none => request
          let base : List (String × PyVal) :=
            [("bucket", .str bucket), ("key", .str key),
             ("download_time", .num dl.downloadTime),
             ("current_s3uri_key", .str s3uriKey)]
          let info := (dictFieldsOf request').foldl
            (fun acc kv => dictSet acc kv.1 kv.2) base
          .ok ((dl.image, info), request')
      | _ => .error "TypeError: urlparse expects a string"

/-- The inner `for s3uri_key in self.s3uri_keys` loop for one request. -/
def imageYieldKeys (download : String → String → DownloadResult) :
    PyVal → List String →
      (List (PyVal × List (String × PyVal)) × Option String)
  | _, [] => ([], Option.none)
  | request, k :: rest =>
      match imageYieldStep download request k with
      | .error e => ([], some e)
      | .ok (yielded, request') =>
          let (ys, err) := imageYieldKeys download request' rest
          (yielded :: ys, err)

/-- The outer `for request in all_processing_requests` loop. -/
def imageYieldRequests (download : String → String → DownloadResult)
    (s3uriKeys : List String) :
    List PyVal → (List (PyVal × List (String × PyVal)) × Option String)
  | [] => ([], Option.none)
  | request :: rest =>
      match imageYieldKeys download request s3uriKeys with
      | (ys, some e) => (ys, some e)
      | (ys, Option.none) =>
          let (ys', err) := imageYieldRequests download s3uriKeys rest
          (ys ++ ys', err)

/-- Generator `SQSMessageS3InputImageCtxManager.get_records`: the receive loop
followed by the yield phase (skipped when nothing was accumulated). -/
def imageGetRecords (queue : List MsgBody) (cap : Nat)
    (download : String → String → DownloadResult) (s3uriKeys : List String) :
    IntakeResult × (List (PyVal × List (String × PyVal)) × Option String) :=
  let r := sqsIntake queue cap
  (r, if r.accumulated.isEmpty then ([], Option.none)
      else imageYieldRequests download s3uriKeys r.accumulated)

/-- A fixed stand-in for the external `prepare_images` download (its value
is irrelevant to C7, which fails before any download happens). -/
def dummyDownload : String → String → DownloadResult :=
  fun _ _ => ⟨.list [], 0, Option.none⟩

/-! ## `OutputCtxManagerBase.put_record`
(`igata/handlers/aws/output/__init__.py`)

    ```python
    RESULT_RECORD_CHUNK_SIZE = int(os.getenv("RESULT_RECORD_CHUNK_SIZE", "15"))

    def put_record(self, record, *args, **kwargs) -> int:
    put_records_count = 0
    self._record_results.append(record)
    if len(self._record_results) >= RESULT_RECORD_CHUNK_SIZE:
        self.put_records(self._record_results, *args, **kwargs)
        put_records_count = len(self._record_results)
        self._record_results = []
    return put_records_count
    ```
-/
/-- Default `RESULT_RECORD_CHUNK_SIZE`. -/
def resultRecordChunkSizeDefault : Nat := 15

/-- Result of one `put_record` call: the buffer afterwards, the returned
count, and the batches handed to `put_records` (zero or one). -/
structure PutRecordResult where
  buffer : List PyVal
  returned : Nat
  flushed : List (List PyVal)

/-- One `put_record` call on the current buffer: append, flush at or above
the chunk size. -/
def putRecord (chunkSize : Nat) (buffer : List PyVal) (record : PyVal) :
    PutRecordResult :=
  if (buffer ++ [record]).length ≥ chunkSize then
    ⟨[], (buffer ++ [record]).length, [buffer ++ [record]]⟩
  else
    ⟨buffer ++ [record], 0, []⟩

/-- The buffer after a sequence of `put_record` calls starting from the
empty buffer `self._record_results = []` set up in `__init__`. -/
def putRecordRunBuffer (chunkSize : Nat) (records : List PyVal) : List PyVal :=
  records.foldl (fun b r => (putRecord chunkSize b r).buffer) []

/-! ## `PredictionExecutor.execute` (`igata/runners/executors.py`)

The per-record pipeline, for each `(record, info)` yielded by the input
context manager:

    ```python
    self.predictor.pre_predict_hook(record, info)            # base-class no-op
    if "is_valid" in info and not info["is_valid"]:
    ... append "is_valid=False, record not processed, SKIPPING" ...
    record_results = info
    summary_results["errors"] += 1
    else:
    if PREDICTOR_RESULTS_KEYNAME in info:
        info.pop(PREDICTOR_RESULTS_KEYNAME)              # "result" by default
    if hasattr(record, "any") and not record.any():
        info["result"] = None
        record_results = info
        summary_results["errors"] += 1
    else:
        record_in_error = False
        if "download_time" in info:
            summary_results["total_download_duration"] += info["download_time"]
        meta["request_info"] = info
        record = self.predictor.preprocess_input(record, meta)   # always defined
        try:
            record_results = self.predictor.predict(record, meta)
            assert isinstance(record_results, dict)
            if "request_info" in meta and meta["request_info"]:
                request_info = {k: v for k, v in meta["request_info"].items()
                                if k not in input_ctxmgr.context_manager_specific_info_keys}
                record_results.update(request_info)
        except PredictTimeoutError:
            ... append timeout message; record_results = info; record_in_error = True
            summary_results["errors"] += 1
        except Exception as e:
            ... append f"{e.__class__.__name__}: {e.args}"; record_results = info
            record_in_error = True; summary_results["errors"] += 1
        summary_results["total_predictions"] += 1
        if hasattr(self.predictor, "postprocess_output") and not record_in_error:
            record_results = self.predictor.postprocess_output(record_results, meta)
    response = output_ctxmgr.put_record(record_results)
    ```

Wall-clock phase durations are explicit inputs (one `PhaseDurations` per
record, plus the context-manager exit duration).  The base-class no-op
hooks (`pre_predict_hook`, `post_predict_hook`) and the SNS notification
dispatch — which touches neither the summary counters nor the stream of
`put_record` arguments — are not modelled.  A failed
`assert isinstance(record_results, dict)` raises `AssertionError`, caught
by `except Exception` with empty `args`. -/
/-- An input record as yielded by an input context manager: either a numpy
array (which has an `.any()` method; `anyTrue` is its value) or any other
value (no `any` attribute). -/
inductive Rec where
  | npArray (anyTrue : Bool)
  | val (v : PyVal)

/-- Check `hasattr(record, "any") and not record.any()`. -/
def recIsEmptyNumpy : Rec → Bool
  | .npArray anyTrue => !anyTrue
  | .val _ => false

/-- Outcome of one `predictor.predict(record, meta)` call. -/
inductive PredictOutcome where
  | ok (result : PyVal)
  | timeoutRaised
  | excRaised (name : String) (args : String)

/-- A user predictor: `predict` plus the `preprocess_input` /
`postprocess_output` methods (always present — `PredictorBase` defines
defaults, so the executor's `hasattr` checks always succeed) and the
`PROCESSING_TIMEOUT_SECONDS` attribute.  The per-record `info` dict stands
in for the `meta` argument (whose varying part is `meta["request_info"] =
info`). -/
structure Predictor where
  predict : Rec → List (String × PyVal) → PredictOutcome
  preprocess : Rec → List (String × PyVal) → Rec
  postprocess : PyVal → List (String × PyVal) → PyVal
  processingTimeoutSeconds : Option Nat

/-- The error message of the `except PredictTimeoutError` handler:
`f"set Predict Timeout value exceeded: {self.predictor.PROCESSING_TIMEOUT_SECONDS}s"`. -/
def timeoutMessage (pred : Predictor) : String :=
  "set Predict Timeout value exceeded: " ++
    (match pred.processingTimeoutSeconds with
     | some t => toString t
     | Option.none => "None") ++ "s"

/-- The `errors` append of the `is_valid=False` branch (no falsy reset):
absent key → new singleton list, else `.append`. -/
def appendErrorSimple (fs : List (String × PyVal)) (msg : String) :
    List (String × PyVal) :=
  match dictGet fs "errors" with
  | Option.none => dictSet fs "errors" (.list [.str msg])
  | some (.list xs) => dictSet fs "errors" (.list (xs ++ [.str msg]))
  | some _ => dictSet fs "errors" (.list [.str msg])

/-- Merge `target.update(updates)` for dicts-as-association-lists. -/
def dictUpdateWith (target updates : List (String × PyVal)) :
    List (String × PyVal) :=
  updates.foldl (fun acc kv => dictSet acc kv.1 kv.2) target

/-- Measured wall-clock durations of one record's phases. -/
structure PhaseDurations where
  preprocessDuration : ℚ
  predictDuration : ℚ
  postprocessDuration : ℚ
  putDuration : ℚ

/-- One input to `execute`: the record, its info dict, and the phase
durations measured while processing it. -/
structure ExecInput where
  record : Rec
  info : List (String × PyVal)
  durations : PhaseDurations

/-- The `summary_results` counter (a `collections.Counter`; absent keys
read as zero, `per_prediction_duration` is only present when computed). -/
structure SummaryCounters where
  errors : Nat
  totalDownloadDuration : ℚ
  totalPreprocessDuration : ℚ
  totalPredictDuration : ℚ
  totalPredictions : Nat
  totalPostprocessDuration : ℚ
  totalPutDuration : ℚ
  contextManagerExitDuration : ℚ
  totalProcessingDuration : ℚ
  perPredictionDuration : Option ℚ

/-- The fresh `Counter()` at the start of `execute`. -/
def emptySummary : SummaryCounters :=
  ⟨0, 0, 0, 0, 0, 0, 0, 0, 0, Option.none⟩

/-- What one record contributes: the value passed to `put_record` and the
per-counter increments. -/
structure RecordOutcome where
  sunk : PyVal
  errorsDelta : Nat
  predictionsDelta : Nat
  downloadDelta : ℚ
  preprocessDelta : ℚ
  predictDelta : ℚ
  postprocessDelta : ℚ

/-- The non-`is_valid=False` path of the per-record pipeline (pop the
`result` key, empty-array check, preprocess, the guarded predict call,
merge of request info, postprocess). -/
def processValidRecord (pred : Predictor) (ctxKeys : List String) (r : Rec)
    (info : List (String × PyVal)) (durs : PhaseDurations) : RecordOutcome :=
  let info1 := dictPop info "result"
  if recIsEmptyNumpy r then
    { sunk := .dict (dictSet info1 "result" .none), errorsDelta := 1,
      predictionsDelta := 0, downloadDelta := 0, preprocessDelta := 0,
      predictDelta := 0, postprocessDelta := 0 }
  else
    let downloadDelta : ℚ :=
      match dictGet info1 "download_time" with
      | some (.num q) => q
      | _ => 0
    let r' := pred.preprocess r info1
    match pred.predict r' info1 with
    | .ok result =>
        match result with
        | .dict resultFields =>
            let requestInfo := info1.filter (fun kv => !(ctxKeys.contains kv.1))
            let merged :=
              if info1.isEmpty then PyVal.dict resultFields
              else PyVal.dict (dictUpdateWith resultFields requestInfo)
            { sunk := pred.postprocess merged info1, errorsDelta := 0,
              predictionsDelta := 1, downloadDelta := downloadDelta,
              preprocessDelta := durs.preprocessDuration,
              predictDelta := durs.predictDuration,
              postprocessDelta := durs.postprocessDuration }
        | _ =>
            { sunk := .dict (appendErrorResetFalsy info1 "AssertionError: ()"),
              errorsDelta := 1, predictionsDelta := 1,
              downloadDelta := downloadDelta,
              preprocessDelta := durs.preprocessDuration,
              predictDelta := durs.predictDuration, postprocessDelta := 0 }
    | .timeoutRaised =>
        { sunk := .dict (appendErrorResetFalsy info1 (timeoutMessage pred)),
          errorsDelta := 1, predictionsDelta := 1,
          downloadDelta := downloadDelta,
          preprocessDelta := durs.preprocessDuration,
          predictDelta := durs.predictDuration, postprocessDelta := 0 }
    | .excRaised name args =>
        { sunk := .dict (appendErrorResetFalsy info1 (name ++ ": " ++ args)),
          errorsDelta := 1, predictionsDelta := 1,
          downloadDelta := downloadDelta,
          preprocessDelta := durs.preprocessDuration,
          predictDelta := durs.predictDuration, postprocessDelta := 0 }

/-- The whole per-record pipeline including the `is_valid` pre-check. -/
def processRecord (pred : Predictor) (ctxKeys : List String) (r : Rec)
    (info : List (String × PyVal)) (durs : PhaseDurations) : RecordOutcome :=
  match dictGet info "is_valid" with
  | some v =>
      if pyTruthy v then processValidRecord pred ctxKeys r info durs
      else
        { sunk := .dict (appendErrorSimple info
            "is_valid=False, record not processed, SKIPPING"),
          errorsDelta := 1, predictionsDelta := 0, downloadDelta := 0,
          preprocessDelta := 0, predictDelta := 0, postprocessDelta := 0 }
  | Option.none => processValidRecord pred ctxKeys r info durs

/-- Folding one record into the running summary and the stream of
`put_record` arguments. -/
def executeStep (pred : Predictor) (ctxKeys : List String)
    (st : SummaryCounters × List PyVal) (inp : ExecInput) :
    SummaryCounters × List PyVal :=
  let o := processRecord pred ctxKeys inp.record inp.info inp.durations
  ({ st.1 with
      errors := st.1.errors + o.errorsDelta,
      totalDownloadDuration := st.1.totalDownloadDuration + o.downloadDelta,
      totalPreprocessDuration := st.1.totalPreprocessDuration + o.preprocessDelta,
      totalPredictDuration := st.1.totalPredictDuration + o.predictDelta,
      totalPredictions := st.1.totalPredictions + o.predictionsDelta,
      totalPostprocessDuration := st.1.totalPostprocessDuration + o.postprocessDelta,
      totalPutDuration := st.1.totalPutDuration + inp.durations.putDuration },
   st.2 ++ [o.sunk])

/-- The result of `execute`: final summary and the ordered list of values
handed to `put_record`. -/
structure ExecutionOutput where
  summary : SummaryCounters
  sunkRecords : List PyVal

/-- Executor `PredictionExecutor.execute` over a drained input stream: fold the
records, record the context-manager exit duration, derive
`total_processing_duration`, and add `per_prediction_duration` only when
`total_predictions > 0`. -/
def execute (pred : Predictor) (ctxKeys : List String)
    (cmExitDuration : ℚ) (inputs : List ExecInput) : ExecutionOutput :=
  let st := inputs.foldl (executeStep pred ctxKeys) (emptySummary, [])
  let totalProcessing := st.1.totalPreprocessDuration +
    st.1.totalPredictDuration + st.1.totalPostprocessDuration
  let s1 : SummaryCounters := { st.1 with
      contextManagerExitDuration := cmExitDuration,
      totalProcessingDuration := totalProcessing }
  let perPrediction : ℚ := totalProcessing / (s1.totalPredictions : ℚ)
  let s2 : SummaryCounters :=
    if 0 < s1.totalPredictions then
      { s1 with perPredictionDuration := some perPrediction }
    else s1
  ⟨s2, st.2⟩

/-- Check `"is_valid" in info and not info["is_valid"]`. -/
def infoInvalidFlag (info : List (String × PyVal)) : Bool :=
  match dictGet info "is_valid" with
  | some v => !pyTruthy v
  | Option.none => false

/-- The record reaches the guarded predict call (neither flagged invalid
nor an empty numpy array). -/
def reachesPredict (r : Rec) (info : List (String × PyVal)) : Bool :=
  !infoInvalidFlag info && !recIsEmptyNumpy r

/-- The predict call for this record raises (timeout or any exception). -/
def predictRaises (pred : Predictor) (r : Rec)
    (info : List (String × PyVal)) : Bool :=
  let info1 := dictPop info "result"
  match pred.predict (pred.preprocess r info1) info1 with
  | .ok _ => false
  | .timeoutRaised => true
  | .excRaised _ _ => true

/-- The record ends in the error branch (`summary_results["errors"] += 1`):
invalid flag, empty array, predict raise, or non-dict predict result. -/
def recordFails (pred : Predictor) (inp : ExecInput) : Bool :=
  infoInvalidFlag inp.info || recIsEmptyNumpy inp.record ||
    (let info1 := dictPop inp.info "result"
     match pred.predict (pred.preprocess inp.record info1) info1 with
     | .ok (.dict _) => false
     | .ok _ => true
     | .timeoutRaised => true
     | .excRaised _ _ => true)

/-- The value sunk for a record whose predict call raised: its info dict
(`result` key popped) with the handler's error message appended to the
`errors` list. -/
def predictFailureSunk (pred : Predictor) (r : Rec)
    (info : List (String × PyVal)) : PyVal :=
  let info1 := dictPop info "result"
  match pred.predict (pred.preprocess r info1) info1 with
  | .ok _ => .none
  | .timeoutRaised => .dict (appendErrorResetFalsy info1 (timeoutMessage pred))
  | .excRaised name args =>
      .dict (appendErrorResetFalsy info1 (name ++ ": " ++ args))

/-- The embedding is faithful only when a record's pre-existing `errors`
value is absent or an actual list (a truthy non-list would make Python's
`.append` raise `AttributeError`); every igata input handler satisfies
this. -/
def errorsWellFormed (info : List (String × PyVal)) : Prop :=
  dictGet info "errors" = Option.none ∨
    ∃ xs, dictGet info "errors" = some (.list xs)

/-- One default input, used only to state indexed access totally. -/
def execInputDefault : ExecInput :=
  ⟨.val .none, [], ⟨0, 0, 0, 0⟩⟩

/-- A concrete predictor that raises only for requests carrying a "boom"
field. -/
def predictorBoom : Predictor :=
  { predict := fun _ info =>
      if dictContains info "boom" then .excRaised "RuntimeError" "()"
      else .ok (.dict [("result", .list [])]),
    preprocess := fun r _ => r,
    postprocess := fun v _ => v,
    processingTimeoutSeconds := Option.none }

def inpOk : ExecInput :=
  ⟨.val (.num 7), [("request_id", .str "r1")], ⟨0, 0, 0, 0⟩⟩

def inpBoom : ExecInput :=
  ⟨.val (.num 8), [("request_id", .str "r2"), ("boom", .boolV true)], ⟨0, 0, 0, 0⟩⟩

/-! ## Theorems -/

theorem acceptedUnits_zero (queue : List MsgBody) : acceptedUnits queue 0 = [] := rfl

theorem acceptedUnits_cons_succ (m : MsgBody) (rest : List MsgBody) (k : Nat) :
    acceptedUnits (m :: rest) (k + 1) =
      (bodyUnits m).getD [] ++ acceptedUnits rest k := by
  simp [acceptedUnits]

theorem okIndices_take_cons_succ (m : MsgBody) (rest : List MsgBody) (k idx : Nat) :
    okIndices ((m :: rest).take (k + 1)) idx =
      (if (bodyUnits m).isSome then [idx] else []) ++ okIndices (rest.take k) (idx + 1) := by
  simp [okIndices]

theorem badIndices_take_cons_succ (m : MsgBody) (rest : List MsgBody) (k idx : Nat) :
    badIndices ((m :: rest).take (k + 1)) idx =
      (if (bodyUnits m).isNone then [idx] else []) ++ badIndices (rest.take k) (idx + 1) := by
  simp [badIndices]

/-- Full characterization of the receive loop: some prefix of `k ≤ |queue|`
messages is fetched; the accumulated units are exactly the units of those
`k` whole messages; `processed_messages` collects the decodable fetched
messages and the in-loop deletions the undecodable ones; the loop kept
fetching only while strictly below capacity, and stopped before queue
exhaustion only at/above capacity. -/
theorem intakeGo_spec (cap : Nat) :
    ∀ (queue : List MsgBody) (idx : Nat) (acc : List PyVal) (tr dd : List Nat),
      ∃ k, k ≤ queue.length ∧
        intakeGo cap queue idx acc tr dd =
          ⟨acc ++ acceptedUnits queue k, tr ++ okIndices (queue.take k) idx,
           dd ++ badIndices (queue.take k) idx, idx + k⟩ ∧
        (∀ j, j + 1 < k → (acc ++ acceptedUnits queue (j + 1)).length < cap) ∧
        (k < queue.length → cap ≤ (acc ++ acceptedUnits queue k).length) := by
  intro queue
  induction queue with
  | nil =>
      intro idx acc tr dd
      refine ⟨0, Nat.le_refl 0, ?_, ?_, ?_⟩
      · simp [intakeGo, acceptedUnits, okIndices, badIndices]
      · intro j hj; omega
      · intro h; simp at h
  | cons m rest ih =>
      intro idx acc tr dd
      match hm : bodyUnits m with
      | some units =>
          by_cases hcap : (acc ++ units).length ≥ cap
          · refine ⟨1, by simp, ?_, ?_, ?_⟩
            · simp only [intakeGo, hm, if_pos hcap]
              rw [acceptedUnits_cons_succ, okIndices_take_cons_succ, badIndices_take_cons_succ]
              simp [hm, acceptedUnits, okIndices, badIndices]
            · intro j hj; omega
            · intro _
              rw [acceptedUnits_cons_succ, acceptedUnits_zero]
              simpa [hm] using hcap
          · obtain ⟨k', hk'len, heq, hbelow, hstop⟩ := ih (idx + 1) (acc ++ units) (tr ++ [idx]) dd
            refine ⟨k' + 1, by simpa using Nat.succ_le_succ hk'len, ?_, ?_, ?_⟩
            · simp only [intakeGo, hm, if_neg hcap]
              rw [heq]
              rw [acceptedUnits_cons_succ, okIndices_take_cons_succ, badIndices_take_cons_succ]
              simp [hm]
              omega
            · intro j hj
              match j with
              | 0 =>
                  rw [acceptedUnits_cons_succ, acceptedUnits_zero]
                  simp only [hm, Option.getD_some, List.append_nil]
                  omega
              | j' + 1 =>
                  have := hbelow j' (by omega)
                  rw [acceptedUnits_cons_succ]
                  simpa [hm, List.append_assoc] using this
            · intro hlt
              have := hstop (by simpa using Nat.lt_of_succ_lt_succ (by simpa using hlt))
              rw [acceptedUnits_cons_succ]
              simpa [hm, List.append_assoc] using this
      | Option.none =>
          by_cases hcap : acc.length ≥ cap
          · refine ⟨1, by simp, ?_, ?_, ?_⟩
            · simp only [intakeGo, hm, if_pos hcap]
              rw [acceptedUnits_cons_succ, okIndices_take_cons_succ, badIndices_take_cons_succ]
              simp [hm, acceptedUnits, okIndices, badIndices]
            · intro j hj; omega
            · intro _
              rw [acceptedUnits_cons_succ, acceptedUnits_zero]
              simpa [hm] using hcap
          · obtain ⟨k', hk'len, heq, hbelow, hstop⟩ := ih (idx + 1) acc tr (dd ++ [idx])
            refine ⟨k' + 1, by simpa using Nat.succ_le_succ hk'len, ?_, ?_, ?_⟩
            · simp only [intakeGo, hm, if_neg hcap]
              rw [heq]
              rw [acceptedUnits_cons_succ, okIndices_take_cons_succ, badIndices_take_cons_succ]
              simp [hm]
              omega
            · intro j hj
              match j with
              | 0 =>
                  rw [acceptedUnits_cons_succ, acceptedUnits_zero]
                  simp only [hm, Option.getD_none, List.nil_append, List.append_nil]
                  omega
              | j' + 1 =>
                  have := hbelow j' (by omega)
                  rw [acceptedUnits_cons_succ]
                  simpa [hm] using this
            · intro hlt
              have := hstop (by simpa using Nat.lt_of_succ_lt_succ (by simpa using hlt))
              rw [acceptedUnits_cons_succ]
              simpa [hm] using this

theorem acceptedUnits_take_succ (queue : List MsgBody) (j : Nat) (hj : j < queue.length) :
    acceptedUnits queue (j + 1) =
      acceptedUnits queue j ++ (bodyUnits queue[j]).getD [] := by
  unfold acceptedUnits
  rw [List.take_succ]
  rw [List.getElem?_eq_getElem hj]
  rw [List.map_append, List.flatten_append]
  simp

theorem le_of_mem_okIndices :
    ∀ (l : List MsgBody) (idx i : Nat), i ∈ okIndices l idx → idx ≤ i := by
  intro l
  induction l with
  | nil => intro idx i h; simp [okIndices] at h
  | cons m tl ih =>
      intro idx i h
      rw [okIndices] at h
      rcases List.mem_append.mp h with h1 | h2
      · rcases Bool.eq_false_or_eq_true (bodyUnits m).isSome with hs | hs <;>
          simp [hs] at h1
        omega
      · have := ih (idx + 1) i h2
        omega

theorem le_of_mem_badIndices :
    ∀ (l : List MsgBody) (idx i : Nat), i ∈ badIndices l idx → idx ≤ i := by
  intro l
  induction l with
  | nil => intro idx i h; simp [badIndices] at h
  | cons m tl ih =>
      intro idx i h
      rw [badIndices] at h
      rcases List.mem_append.mp h with h1 | h2
      · rcases Bool.eq_false_or_eq_true (bodyUnits m).isNone with hs | hs <;>
          simp [hs] at h1
        omega
      · have := ih (idx + 1) i h2
        omega

/-- A message index appended to `processed_messages` (decoded fine) is never
among the indices deleted for a decode failure: the loop classifies each
fetched message exactly once. -/
theorem okIndices_disjoint_badIndices :
    ∀ (l : List MsgBody) (idx i : Nat), i ∈ okIndices l idx → i ∉ badIndices l idx := by
  intro l
  induction l with
  | nil => intro idx i h; simp [okIndices] at h
  | cons m tl ih =>
      intro idx i hok hbad
      rw [okIndices] at hok
      rw [badIndices] at hbad
      cases hbody : bodyUnits m with
      | some u =>
          rw [hbody] at hok hbad
          simp at hok hbad
          rcases hok with rfl | h2
          · have := le_of_mem_badIndices tl _ _ hbad
            omega
          · exact ih _ i h2 hbad
      | none =>
          rw [hbody] at hok hbad
          simp at hok hbad
          rcases hbad with rfl | hb2
          · have := le_of_mem_okIndices tl _ _ hok
            omega
          · exact ih _ i hok hb2

/-- C4: the capacity ceiling is soft.  Some prefix of `k` whole messages is
fetched one at a time; `accumulated` holds *every* unit of each fetched
message (never truncated); fetching continued past a message only while the
running count was still strictly below `cap`, and stopped before exhausting
the queue only once `cap` was reached or exceeded; consequently the final
count exceeds `cap` by at most the last fetched message's unit count. -/
theorem sqsIntake_overflow_tolerance (queue : List MsgBody) (cap : Nat) :
    ∃ k, k ≤ queue.length ∧
      (sqsIntake queue cap).fetched = k ∧
      (sqsIntake queue cap).accumulated = acceptedUnits queue k ∧
      (∀ j, j + 1 < k → (acceptedUnits queue (j + 1)).length < cap) ∧
      (k < queue.length → cap ≤ (acceptedUnits queue k).length) ∧
      (0 < k → (acceptedUnits queue k).length ≤
        cap - 1 + ((bodyUnits (queue.getD (k - 1) (.arr []))).getD []).length) := by
  obtain ⟨k, hlen, heq, hbelow, hstop⟩ := intakeGo_spec cap queue 0 [] [] []
  rw [sqsIntake]
  rw [heq]
  simp only [List.nil_append, Nat.zero_add]
  refine ⟨k, hlen, rfl, rfl, ?_, ?_, ?_⟩
  · intro j hj
    have := hbelow j hj
    simpa using this
  · intro hk
    have := hstop hk
    simpa using this
  · intro hk
    obtain ⟨j, rfl⟩ : ∃ j, k = j + 1 := ⟨k - 1, by omega⟩
    have hjlen : j < queue.length := by omega
    rw [acceptedUnits_take_succ queue j hjlen]
    have hgetD : queue.getD (j + 1 - 1) (.arr []) = queue[j] := by
      simp [List.getD_eq_getElem?_getD, List.getElem?_eq_getElem hjlen]
    rw [hgetD]
    rw [List.length_append]
    have hfirst : (acceptedUnits queue j).length ≤ cap - 1 := by
      match j with
      | 0 => simp [acceptedUnits]
      | j' + 1 =>
          have := hbelow j' (by omega)
          simp only [List.nil_append] at this
          omega
    omega

/-- Witness for C4: capacity 5, a first message with 4 units and a second
with 3; the second message is accepted whole (7 units in total, within one
message's worth above the ceiling) and fetching stops. -/
theorem sqsIntake_overflow_tolerance_witness :
    (0 : Nat) < 2 ∧
      (acceptedUnits
          [MsgBody.arr [.num 1, .num 2, .num 3, .num 4],
           MsgBody.arr [.num 5, .num 6, .num 7]] 2).length ≤
        5 - 1 +
          ((bodyUnits
              ([MsgBody.arr [.num 1, .num 2, .num 3, .num 4],
                MsgBody.arr [.num 5, .num 6, .num 7]].getD (2 - 1)
                (.arr []))).getD []).length := by
  obtain ⟨k, _, hf, _, _, _, hbound⟩ :=
    sqsIntake_overflow_tolerance
      [MsgBody.arr [.num 1, .num 2, .num 3, .num 4],
       MsgBody.arr [.num 5, .num 6, .num 7]] 5
  have hf2 :
      (sqsIntake
        [MsgBody.arr [.num 1, .num 2, .num 3, .num 4],
         MsgBody.arr [.num 5, .num 6, .num 7]] 5).fetched = 2 := by
    decide
  have hk : k = 2 := by
    rw [← hf, hf2]
  subst hk
  exact ⟨by decide, hbound (by decide)⟩

theorem delete_mem_sqsRunActions_iff (queue : List MsgBody) (cap : Nat)
    (raised : Bool) (i : Nat) :
    SQSAction.delete i ∈ sqsRunActions queue cap raised ↔
      i ∈ (sqsIntake queue cap).decodeDeleted ∨
        (raised = false ∧ i ∈ (sqsIntake queue cap).tracked) := by
  cases raised <;> simp [sqsRunActions, sqsExitActions]

theorem changeVis_mem_sqsRunActions_iff (queue : List MsgBody) (cap : Nat)
    (raised : Bool) (i d : Nat) :
    SQSAction.changeVisibility i d ∈ sqsRunActions queue cap raised ↔
      raised = true ∧ d = visibilityTimeoutOnException ∧
        i ∈ (sqsIntake queue cap).tracked := by
  cases raised with
  | false => simp [sqsRunActions, sqsExitActions]
  | true =>
      simp [sqsRunActions, sqsExitActions]
      constructor
      · rintro ⟨a, ha, rfl, hd⟩
        exact ⟨hd.symm, ha⟩
      · rintro ⟨hd, hi⟩
        exact ⟨i, hi, rfl, hd.symm⟩

theorem tracked_disjoint_decodeDeleted (queue : List MsgBody) (cap : Nat) :
    ∀ i, i ∈ (sqsIntake queue cap).tracked →
      i ∉ (sqsIntake queue cap).decodeDeleted := by
  obtain ⟨k, _, heq, _, _⟩ := intakeGo_spec cap queue 0 [] [] []
  intro i hi hdd
  simp only [sqsIntake] at hi hdd
  rw [heq] at hi hdd
  simp at hi hdd
  exact okIndices_disjoint_badIndices (queue.take k) 0 i hi hdd

/-- C2: on a clean exit every tracked message is deleted and none has its
visibility changed; on an exceptional exit every tracked message has its
visibility reset to the fixed 5-second delay and none is deleted; and no
message is ever both deleted and visibility-reset in one run. -/
theorem sqsRun_ack_xor_release (queue : List MsgBody) (cap : Nat) (raised : Bool) :
    (raised = false →
      ∀ i ∈ (sqsIntake queue cap).tracked,
        SQSAction.delete i ∈ sqsRunActions queue cap raised ∧
        ∀ d, SQSAction.changeVisibility i d ∉ sqsRunActions queue cap raised) ∧
    (raised = true →
      ∀ i ∈ (sqsIntake queue cap).tracked,
        SQSAction.changeVisibility i visibilityTimeoutOnException ∈
            sqsRunActions queue cap raised ∧
        SQSAction.delete i ∉ sqsRunActions queue cap raised) ∧
    (∀ i d, ¬(SQSAction.delete i ∈ sqsRunActions queue cap raised ∧
        SQSAction.changeVisibility i d ∈ sqsRunActions queue cap raised)) := by
  refine ⟨?_, ?_, ?_⟩
  · rintro rfl i hi
    refine ⟨?_, ?_⟩
    · rw [delete_mem_sqsRunActions_iff]
      exact Or.inr ⟨rfl, hi⟩
    · intro d hmem
      rw [changeVis_mem_sqsRunActions_iff] at hmem
      exact Bool.noConfusion hmem.1
  · rintro rfl i hi
    refine ⟨?_, ?_⟩
    · rw [changeVis_mem_sqsRunActions_iff]
      exact ⟨rfl, rfl, hi⟩
    · intro hmem
      rw [delete_mem_sqsRunActions_iff] at hmem
      rcases hmem with hdd | ⟨hf, _⟩
      · exact tracked_disjoint_decodeDeleted queue cap i hi hdd
      · exact Bool.noConfusion hf
  · rintro i d ⟨hdel, hvis⟩
    rw [delete_mem_sqsRunActions_iff] at hdel
    rw [changeVis_mem_sqsRunActions_iff] at hvis
    rcases hdel with hdd | ⟨hf, _⟩
    · exact tracked_disjoint_decodeDeleted queue cap i hvis.2.2 hdd
    · rw [hvis.1] at hf
      exact Bool.noConfusion hf

/-- Witness for C2: a concrete two-message queue, exercised on both the
clean and the exceptional exit path. -/
theorem sqsRun_ack_xor_release_witness :
    (SQSAction.delete 0 ∈
        sqsRunActions [.arr [.str "r1"], .arr [.str "r2"]] 50 false) ∧
    (SQSAction.changeVisibility 0 visibilityTimeoutOnException ∈
        sqsRunActions [.arr [.str "r1"], .arr [.str "r2"]] 50 true) ∧
    (SQSAction.delete 0 ∉
        sqsRunActions [.arr [.str "r1"], .arr [.str "r2"]] 50 true) := by
  have h0 : (0 : Nat) ∈ (sqsIntake [.arr [.str "r1"], .arr [.str "r2"]] 50).tracked := by
    decide
  refine ⟨((sqsRun_ack_xor_release _ 50 false).1 rfl 0 h0).1,
    ((sqsRun_ack_xor_release _ 50 true).2.1 rfl 0 h0).1,
    ((sqsRun_ack_xor_release _ 50 true).2.1 rfl 0 h0).2⟩

/-- C7 fails on the code: a message whose body is a single JSON object
`{"s3uri": "s3://bucket/key.png"}` is *not* treated as a one-element array.
`all_processing_requests.extend(...)` spreads the object's *keys*, so the
accumulator holds the string `"s3uri"` instead of the request object, the
dead `isinstance(..., list)` normalization never fires, and the yield loop
raises a `TypeError` on `request[s3uri_key]` without yielding anything. -/
theorem sqsObjectBody_spreads_keys_and_raises :
    (imageGetRecords [MsgBody.obj [("s3uri", .str "s3://bucket/key.png")]] 50
        dummyDownload ["s3uri"]).1.accumulated = [PyVal.str "s3uri"] ∧
      (imageGetRecords [MsgBody.obj [("s3uri", .str "s3://bucket/key.png")]] 50
          dummyDownload ["s3uri"]).2 =
        ([], some "TypeError: string indices must be integers") :=
  ⟨rfl, rfl⟩

/-- C5: `put_record` appends the record; once the buffer holds at least
`chunkSize` records it is passed wholesale to `put_records` and cleared,
and the call returns the flushed count (otherwise `0` and no flush); after
any sequence of calls from an empty buffer the buffer holds at most
`chunkSize - 1` records. -/
theorem putRecord_chunked_buffering (chunkSize : Nat) (hchunk : 1 ≤ chunkSize) :
    (∀ (buffer : List PyVal) (record : PyVal),
      ((buffer ++ [record]).length ≥ chunkSize →
          putRecord chunkSize buffer record =
            ⟨[], (buffer ++ [record]).length, [buffer ++ [record]]⟩) ∧
      ((buffer ++ [record]).length < chunkSize →
          putRecord chunkSize buffer record = ⟨buffer ++ [record], 0, []⟩) ∧
      (putRecord chunkSize buffer record).buffer.length ≤ chunkSize - 1) ∧
    (∀ records : List PyVal,
      (putRecordRunBuffer chunkSize records).length ≤ chunkSize - 1) := by
  have hsingle : ∀ (buffer : List PyVal) (record : PyVal),
      ((buffer ++ [record]).length ≥ chunkSize →
          putRecord chunkSize buffer record =
            ⟨[], (buffer ++ [record]).length, [buffer ++ [record]]⟩) ∧
      ((buffer ++ [record]).length < chunkSize →
          putRecord chunkSize buffer record = ⟨buffer ++ [record], 0, []⟩) ∧
      (putRecord chunkSize buffer record).buffer.length ≤ chunkSize - 1 := by
    intro buffer record
    refine ⟨?_, ?_, ?_⟩
    · intro h
      rw [putRecord, if_pos h]
    · intro h
      rw [putRecord, if_neg (by omega)]
    · by_cases h : (buffer ++ [record]).length ≥ chunkSize
      · rw [putRecord, if_pos h]
        simp
      · rw [putRecord, if_neg h]
        show (buffer ++ [record]).length ≤ chunkSize - 1
        simp only [List.length_append, List.length_singleton] at h ⊢
        omega
  refine ⟨hsingle, ?_⟩
  intro records
  rw [putRecordRunBuffer]
  have hgen : ∀ (rs : List PyVal) (b : List PyVal), b.length ≤ chunkSize - 1 →
      (rs.foldl (fun b r => (putRecord chunkSize b r).buffer) b).length ≤
        chunkSize - 1 := by
    intro rs
    induction rs with
    | nil => intro b hb; simpa using hb
    | cons r tl ih =>
        intro b hb
        simp only [List.foldl_cons]
        exact ih _ (hsingle b r).2.2
  exact hgen records [] (by simp)

/-- Witness for C5 at `chunkSize = 15`: a 14-record buffer flushes on the
15th put (returning 15) and a short buffer only buffers (returning 0). -/
theorem putRecord_chunked_buffering_witness :
    putRecord 15 (List.replicate 14 (PyVal.num 1)) (PyVal.num 2) =
        ⟨[], 15, [List.replicate 14 (PyVal.num 1) ++ [PyVal.num 2]]⟩ ∧
      putRecord 15 [] (PyVal.num 3) = ⟨[PyVal.num 3], 0, []⟩ ∧
      (putRecordRunBuffer 15 (List.replicate 17 (PyVal.num 0))).length ≤ 14 := by
  refine ⟨?_, ?_, ?_⟩
  · have h := ((putRecord_chunked_buffering 15 (by norm_num)).1
      (List.replicate 14 (PyVal.num 1)) (PyVal.num 2)).1 (by simp)
    simpa using h
  · exact ((putRecord_chunked_buffering 15 (by norm_num)).1 [] (PyVal.num 3)).2.1
      (by simp)
  · exact (putRecord_chunked_buffering 15 (by norm_num)).2
      (List.replicate 17 (PyVal.num 0))

/-! ## Theorems about `flatten` and the dedup key (claims C8, C10) -/
/-- Replacing a field's value by the empty string and removing the field
produce the same `allow_null_strings=False` flattening: the empty-string
leaf is dropped by `flatten`, and every other field is traversed
identically. -/
theorem flattenFields_set_empty_eq_pop (s k p : String) :
    ∀ fs, flattenFields false s (dictSet fs k (.str "")) p =
      flattenFields false s (dictPop fs k) p := by
  intro fs
  induction fs with
  | nil => simp [dictSet, dictPop, flattenFields, flatten]
  | cons hd tl ih =>
      obtain ⟨k', v⟩ := hd
      by_cases h : k' == k
      · simp [dictSet, dictPop, h, flattenFields, flatten]
      · simp [dictSet, dictPop, h, flattenFields, ih]

/-- C8: the detailed-results dedup key is a deterministic function of the
flattened representation of the result content: two result entries with
equal flattening receive the same `hashkey`, whatever digest
(`md5(str(sorted(...)))` in the source) is applied. -/
theorem dedupHashkey_deterministic (digest : List (String × PyVal) → String)
    (r₁ r₂ : PyVal) (h : flattenedResult r₁ = flattenedResult r₂) :
    dedupHashkey digest r₁ = dedupHashkey digest r₂ := by
  unfold dedupHashkey
  rw [h]

/-- Witness for C8 at concrete inputs: two distinct result entries (one has
an extra empty-string field) flatten identically and get identical keys. -/
theorem dedupHashkey_deterministic_witness :
    flattenedResult (.dict [("a", .num 1), ("b", .str "")]) =
        flattenedResult (.dict [("a", .num 1)]) ∧
      dedupHashkey (fun l => toString l.length)
          (.dict [("a", .num 1), ("b", .str "")]) =
        dedupHashkey (fun l => toString l.length) (.dict [("a", .num 1)]) :=
  ⟨rfl, dedupHashkey_deterministic (fun l => toString l.length) _ _ rfl⟩

/-- C10: because `put_records` flattens with `allow_null_strings=False`,
a result entry with a field set to `""` receives exactly the same
detailed-results `hashkey` as the entry without that field. -/
theorem dedupHashkey_ignores_empty_string_fields
    (digest : List (String × PyVal) → String)
    (fs : List (String × PyVal)) (k : String) :
    dedupHashkey digest (.dict (dictSet fs k (.str ""))) =
      dedupHashkey digest (.dict (dictErase fs k)) := by
  unfold dedupHashkey flattenedResult dictErase
  simp only [flatten]
  rw [flattenFields_set_empty_eq_pop]

/-! ## Theorems about `serialize_json_and_chunk_by_bytes` (claims C3, C6) -/
/-- C3 fails on the code: four 10-character strings with `max_bytes = 20`
(≥ every single item's 12-byte encoding).  After the first in-loop flush,
`last_json_str` is left holding the JSON of the *entire* pre-flush group, so
the next flush re-yields the first item inside an oversize 28-byte chunk:
the yielded groups are `[a]`, `[a, b]`, `[c]`, `[d]` — their concatenation
duplicates item `a`, and the second chunk exceeds the byte limit. -/
theorem serializeChunk_duplicates_and_oversizes :
    serializeJsonAndChunkByBytes
        [.str "aaaaaaaaaa", .str "bbbbbbbbbb", .str "cccccccccc", .str "dddddddddd"]
        20 =
      .ok [some "[\"aaaaaaaaaa\"]", some "[\"aaaaaaaaaa\", \"bbbbbbbbbb\"]",
           some "[\"cccccccccc\"]", some "[\"dddddddddd\"]"] ∧
      ("[\"aaaaaaaaaa\", \"bbbbbbbbbb\"]").utf8ByteSize > 20 ∧
      (pyJsonDumps (.str "aaaaaaaaaa")).utf8ByteSize ≤ 20 ∧
      (pyJsonDumps (.str "bbbbbbbbbb")).utf8ByteSize ≤ 20 ∧
      (pyJsonDumps (.str "cccccccccc")).utf8ByteSize ≤ 20 ∧
      (pyJsonDumps (.str "dddddddddd")).utf8ByteSize ≤ 20 := by
  refine ⟨rfl, by decide, by decide, by decide, by decide, by decide⟩

/-- C6 fails on the code: for a first (and only) item whose own encoding
(25 bytes) exceeds `max_bytes = 20`, no `ValueError` is raised — the
oversize-item branch is unreachable because `is_initial` is already `False`
whenever `chunked_items` is non-empty.  Instead the trailing block yields an
*empty* group `"[]"` followed by an oversize chunk. -/
theorem serializeChunk_oversize_first_item_no_raise :
    serializeJsonAndChunkByBytes [.str "aaaaaaaaaaaaaaaaaaaaaaa"] 20 =
      .ok [some "[]", some "[\"aaaaaaaaaaaaaaaaaaaaaaa\"]"] ∧
      (pyJsonDumps (.str "aaaaaaaaaaaaaaaaaaaaaaa")).utf8ByteSize > 20 :=
  ⟨rfl, by decide⟩

theorem processValidRecord_errorsDelta (pred : Predictor) (ctxKeys : List String)
    (r : Rec) (info : List (String × PyVal)) (durs : PhaseDurations) :
    (processValidRecord pred ctxKeys r info durs).errorsDelta =
      if recIsEmptyNumpy r then 1
      else
        match pred.predict (pred.preprocess r (dictPop info "result"))
            (dictPop info "result") with
        | .ok (.dict _) => 0
        | _ => 1 := by
  rw [processValidRecord]
  by_cases hre : recIsEmptyNumpy r
  · simp [hre]
  · simp only [hre, if_false, Bool.false_eq_true]
    cases hp : pred.predict (pred.preprocess r (dictPop info "result"))
        (dictPop info "result") with
    | ok res => cases res <;> simp
    | timeoutRaised => simp
    | excRaised name args => simp

theorem processRecord_errorsDelta (pred : Predictor) (ctxKeys : List String)
    (r : Rec) (info : List (String × PyVal)) (durs : PhaseDurations) :
    (processRecord pred ctxKeys r info durs).errorsDelta =
      if recordFails pred ⟨r, info, durs⟩ then 1 else 0 := by
  rw [processRecord, recordFails]
  cases hv : dictGet info "is_valid" with
  | none =>
      rw [processValidRecord_errorsDelta]
      simp only [infoInvalidFlag, hv]
      by_cases hre : recIsEmptyNumpy r
      · simp [hre]
      · simp only [hre]
        cases hp : pred.predict (pred.preprocess r (dictPop info "result"))
            (dictPop info "result") with
        | ok res => cases res <;> simp
        | timeoutRaised => simp
        | excRaised name args => simp
  | some v =>
      by_cases ht : pyTruthy v
      · simp only [ht, if_true]
        rw [processValidRecord_errorsDelta]
        simp only [infoInvalidFlag, hv, ht]
        by_cases hre : recIsEmptyNumpy r
        · simp [hre]
        · simp only [hre]
          cases hp : pred.predict (pred.preprocess r (dictPop info "result"))
              (dictPop info "result") with
          | ok res => cases res <;> simp
          | timeoutRaised => simp
          | excRaised name args => simp
      · simp only [ht, if_false]
        simp [infoInvalidFlag, hv, ht]

theorem processRecord_sunk_predict_raise (pred : Predictor) (ctxKeys : List String)
    (r : Rec) (info : List (String × PyVal)) (durs : PhaseDurations)
    (hreach : reachesPredict r info = true)
    (hraise : predictRaises pred r info = true) :
    (processRecord pred ctxKeys r info durs).sunk =
      predictFailureSunk pred r info := by
  rw [reachesPredict] at hreach
  simp only [Bool.and_eq_true, Bool.not_eq_true'] at hreach
  obtain ⟨hinv, hre⟩ := hreach
  rw [processRecord]
  rw [infoInvalidFlag] at hinv
  rw [predictRaises] at hraise
  rw [predictFailureSunk]
  cases hv : dictGet info "is_valid" with
  | none =>
      rw [processValidRecord]
      simp only [hre, if_false, Bool.false_eq_true]
      cases hp : pred.predict (pred.preprocess r (dictPop info "result"))
          (dictPop info "result") with
      | ok res => rw [hp] at hraise; simp at hraise
      | timeoutRaised => simp
      | excRaised name args => simp
  | some v =>
      rw [hv] at hinv
      have ht : pyTruthy v = true := by
        simpa using hinv
      simp only [ht, if_true]
      rw [processValidRecord]
      simp only [hre, if_false, Bool.false_eq_true]
      cases hp : pred.predict (pred.preprocess r (dictPop info "result"))
          (dictPop info "result") with
      | ok res => rw [hp] at hraise; simp at hraise
      | timeoutRaised => simp
      | excRaised name args => simp

theorem executeFold_spec (pred : Predictor) (ctxKeys : List String) :
    ∀ (inputs : List ExecInput) (s0 : SummaryCounters) (l0 : List PyVal),
      (inputs.foldl (executeStep pred ctxKeys) (s0, l0)).2 =
        l0 ++ inputs.map (fun inp =>
          (processRecord pred ctxKeys inp.record inp.info inp.durations).sunk) ∧
      (inputs.foldl (executeStep pred ctxKeys) (s0, l0)).1.errors =
        s0.errors + inputs.countP (recordFails pred) := by
  intro inputs
  induction inputs with
  | nil => intro s0 l0; simp
  | cons hd tl ih =>
      intro s0 l0
      simp only [List.foldl_cons, List.map_cons, List.countP_cons]
      obtain ⟨h2, h1⟩ := ih (executeStep pred ctxKeys (s0, l0) hd).1
        (executeStep pred ctxKeys (s0, l0) hd).2
      constructor
      · rw [h2]
        simp [executeStep]
      · rw [h1]
        simp only [executeStep]
        rw [processRecord_errorsDelta]
        by_cases hf : recordFails pred hd
        · simp only [hf, if_true]
          omega
        · simp only [hf, if_false]
          omega

theorem execute_sunkRecords (pred : Predictor) (ctxKeys : List String)
    (cmExit : ℚ) (inputs : List ExecInput) :
    (execute pred ctxKeys cmExit inputs).sunkRecords =
      inputs.map (fun inp =>
        (processRecord pred ctxKeys inp.record inp.info inp.durations).sunk) := by
  have h := (executeFold_spec pred ctxKeys inputs emptySummary []).1
  simpa [execute] using h

theorem execute_summary_errors (pred : Predictor) (ctxKeys : List String)
    (cmExit : ℚ) (inputs : List ExecInput) :
    (execute pred ctxKeys cmExit inputs).summary.errors =
      inputs.countP (recordFails pred) := by
  have h := (executeFold_spec pred ctxKeys inputs emptySummary []).2
  simp only [execute]
  split
  · simpa [emptySummary] using h
  · simpa [emptySummary] using h

/-- C1 per-item isolation. -/
theorem execute_per_item_isolation (pred : Predictor) (ctxKeys : List String)
    (cmExit : ℚ) (inputs : List ExecInput)
    (_hwf : ∀ inp ∈ inputs, errorsWellFormed inp.info) :
    (execute pred ctxKeys cmExit inputs).sunkRecords.length = inputs.length ∧
    (execute pred ctxKeys cmExit inputs).summary.errors =
      inputs.countP (recordFails pred) ∧
    ∀ i, i < inputs.length →
      reachesPredict (inputs.getD i execInputDefault).record
          (inputs.getD i execInputDefault).info = true →
      predictRaises pred (inputs.getD i execInputDefault).record
          (inputs.getD i execInputDefault).info = true →
      (execute pred ctxKeys cmExit inputs).sunkRecords.getD i .none =
        predictFailureSunk pred (inputs.getD i execInputDefault).record
          (inputs.getD i execInputDefault).info := by
  refine ⟨?_, execute_summary_errors pred ctxKeys cmExit inputs, ?_⟩
  · rw [execute_sunkRecords]
    simp
  · intro i hi hreach hraise
    rw [execute_sunkRecords]
    have hgd : inputs.getD i execInputDefault = inputs[i] := by
      simp [List.getD_eq_getElem?_getD, List.getElem?_eq_getElem hi]
    have hmap : (inputs.map (fun inp =>
        (processRecord pred ctxKeys inp.record inp.info inp.durations).sunk)).getD
          i .none =
        (processRecord pred ctxKeys (inputs[i]).record (inputs[i]).info
          (inputs[i]).durations).sunk := by
      have hi' : i < (inputs.map (fun inp =>
          (processRecord pred ctxKeys inp.record inp.info inp.durations).sunk)).length := by
        simpa using hi
      simp [List.getD_eq_getElem?_getD, List.getElem?_eq_getElem hi']
    rw [hmap]
    rw [hgd] at hreach hraise
    exact processRecord_sunk_predict_raise pred ctxKeys _ _ _ hreach hraise |>.trans
      (by rw [hgd])

/-- C9 empty input. -/
theorem execute_empty_input (pred : Predictor) (ctxKeys : List String)
    (cmExit : ℚ) :
    (execute pred ctxKeys cmExit []).summary.totalPredictions = 0 ∧
    (execute pred ctxKeys cmExit []).summary.errors = 0 ∧
    (execute pred ctxKeys cmExit []).summary.totalDownloadDuration = 0 ∧
    (execute pred ctxKeys cmExit []).summary.totalPreprocessDuration = 0 ∧
    (execute pred ctxKeys cmExit []).summary.totalPredictDuration = 0 ∧
    (execute pred ctxKeys cmExit []).summary.totalPostprocessDuration = 0 ∧
    (execute pred ctxKeys cmExit []).summary.totalPutDuration = 0 ∧
    (execute pred ctxKeys cmExit []).summary.totalProcessingDuration = 0 ∧
    (execute pred ctxKeys cmExit []).summary.perPredictionDuration = Option.none ∧
    (execute pred ctxKeys cmExit []).summary.contextManagerExitDuration = cmExit ∧
    (execute pred ctxKeys cmExit []).sunkRecords = [] := by
  refine ⟨?_, ?_, ?_, ?_, ?_, ?_, ?_, ?_, ?_, ?_, ?_⟩ <;>
    simp [execute, emptySummary]

theorem execute_per_item_isolation_witness :
    (execute predictorBoom [] 0 [inpOk, inpBoom]).sunkRecords.length = 2 ∧
    (execute predictorBoom [] 0 [inpOk, inpBoom]).summary.errors = 1 ∧
    (execute predictorBoom [] 0 [inpOk, inpBoom]).sunkRecords.getD 1 .none =
      predictFailureSunk predictorBoom inpBoom.record inpBoom.info := by
  obtain ⟨hlen, herr, hidx⟩ :=
    execute_per_item_isolation predictorBoom [] 0 [inpOk, inpBoom]
      (by
        intro inp hinp
        simp only [List.mem_cons, List.not_mem_nil, or_false] at hinp
        rcases hinp with rfl | rfl
        · exact Or.inl rfl
        · exact Or.inl rfl)
  refine ⟨by rw [hlen]; rfl, ?_, ?_⟩
  · rw [herr]
    decide
  · exact hidx 1 (by norm_num) (by decide) (by decide)

end Igata

